import Mathlib

/-!
# Verification of the pepe-mage-source submission/redistribution core

Shallow embedding of `src/index.mjs` (second script revision, the one with the
backlog-adaptive scheduler, blacklist, and multi-post batches).  JavaScript
objects become Lean structures with `Option` fields (a `none` field is an
absent / `undefined` property); JavaScript truthiness on those fields is made
explicit (`undefined`, `0` and `""` are falsy; present objects and arrays are
truthy).  Fallible functions return an explicit sum; handlers are pure
functions from their inputs (including the random draws consumed) to a list of
gateway effects and/or a new state.
-/

namespace PepeMage

/-- A Telegram chat, reduced to its identifier. -/
structure Chat where
  id : Int
deriving DecidableEq, Repr

/-- A Telegram user, reduced to its identifier. -/
structure User where
  id : Int
deriving DecidableEq, Repr

/-- One entry of a photo-size list: an opaque file handle. -/
structure PhotoSize where
  file_id : String
deriving DecidableEq, Repr

/-- A video or animation attachment: an opaque file handle. -/
structure MediaFile where
  file_id : String
deriving DecidableEq, Repr

/-- Caption rich-text entity, kept opaque. -/
structure CaptionEntity where
  raw : String
deriving DecidableEq, Repr

/--
A raw inbound Telegram message, restricted to the fields `index.mjs` reads.
`none` models an absent (`undefined`) property.
-/
structure Message where
  message_id : Nat
  chat : Chat
  fromUser : User
  text : Option String := none
  media_group_id : Option String := none
  photo : Option (List PhotoSize) := none
  video : Option MediaFile := none
  animation : Option MediaFile := none
  caption : Option String := none
  parse_mode : Option String := none
  caption_entities : Option (List CaptionEntity) := none
  forward_date : Option Nat := none
  forward_from_chat : Option Chat := none
deriving DecidableEq, Repr

/-- JavaScript truthiness of an optional string: `undefined` and `""` are falsy. -/
def strTruthy : Option String → Bool
  | none => false
  | some s => s ≠ ""

/-- JavaScript truthiness of an optional number: `undefined` and `0` are falsy. -/
def numTruthy : Option Nat → Bool
  | none => false
  | some n => n ≠ 0

/--
The caption property bundle produced by `pickMessageProps`: the lodash
`pick(message, ['caption', 'parse_mode', 'caption_entities'])` keeps exactly
the fields present on the message, so we carry each as an `Option`.
-/
structure Props where
  caption : Option String := none
  parse_mode : Option String := none
  caption_entities : Option (List CaptionEntity) := none
deriving DecidableEq, Repr

/-- The empty property bundle `{}`. -/
def emptyProps : Props := {}

/--
Embedding of `pickMessageProps(message)` from `index.mjs`:
`message.forward_date ? {} : pick(message, ['caption', 'parse_mode', 'caption_entities'])`.
`forward_date` is a Unix timestamp; the JS test is truthiness, so an absent or
zero timestamp takes the `pick` branch.
-/
def pickMessageProps (m : Message) : Props :=
  if numTruthy m.forward_date then {}
  else { caption := m.caption, parse_mode := m.parse_mode,
         caption_entities := m.caption_entities }

/--
A serialized message `['sendPhoto' | 'sendVideo' | 'sendAnimation', file_id, props]`
ready for `bot[method](chatId, fileId, props)`.
-/
structure Serialized where
  method : String
  file_id : String
  props : Props
deriving DecidableEq, Repr

/--
Outcome of `serializeMessage`: success, a thrown `SerializationError` with its
message text, or a crash (`TypeError`) from `message.photo[0].file_id` when the
photo-size list is present but empty (degenerate input the real API never
produces; a `TypeError` is not a `SerializationError`, so callers treat it
differently).
-/
inductive SerResult where
  | ok (s : Serialized)
  | err (reason : String)
  | crash
deriving DecidableEq, Repr

/--
Embedding of `serializeMessage(message)` from `index.mjs`, rules in source
order: media-group marker, photo, video, animation, text, fallback.
-/
def serializeMessage (m : Message) : SerResult :=
  if strTruthy m.media_group_id then
    .err "Media groups are not supported yet :("
  else
    match m.photo with
    | some ps =>
      match ps.head? with
      | some p => .ok ⟨"sendPhoto", p.file_id, pickMessageProps m⟩
      | none => .crash
    | none =>
      match m.video with
      | some v => .ok ⟨"sendVideo", v.file_id, pickMessageProps m⟩
      | none =>
        match m.animation with
        | some a => .ok ⟨"sendAnimation", a.file_id, pickMessageProps m⟩
        | none =>
          if strTruthy m.text then .err "No text only content :("
          else .err "No allowed content found :("

/--
Check whether a serialization result is a thrown `SerializationError`.
-/
def SerResult.isErr : SerResult → Bool
  | .err _ => true
  | _ => false

/--
A serialized message decorated by `addAdminReplyMarkup`: the message plus a
flag marking the Yes/No inline keyboard.  For every value `serializeMessage`
produces, the source guard `length === 3 && isPlainObject(options)` holds, so
the markup branch is always taken.
-/
structure Outbound where
  msg : Serialized
  markup : Bool
deriving DecidableEq, Repr

/--
Embedding of `addAdminReplyMarkup(serializedMessage)`: attaches the
Yes(accept)/No(reject) inline keyboard to the options object.
-/
def addAdminReplyMarkup (s : Serialized) : Outbound := ⟨s, true⟩

/--
One observable gateway / store action performed by a handler, in order.
`storeMessage none` records the degenerate `storeSerializedMessage(null)` call
reachable in `handleCallbackQuery` through the crash path.
-/
inductive Effect where
  | sendText (chatId : Int) (text : String)
  | sendSerialized (chatId : Int) (out : Outbound)
  | storeMessage (s : Option Serialized)
  | deleteMessage (chatId : Int) (messageId : Nat)
  | answerCallbackQuery (queryId : String)
deriving DecidableEq, Repr

/--
Embedding of `checkIfBlacklisted(message)`:
`!!message.forward_from_chat && BLACKLISTED_CHAT_IDS.includes(message.forward_from_chat.id)`.
-/
def checkIfBlacklisted (blacklist : List Int) (m : Message) : Bool :=
  match m.forward_from_chat with
  | some c => blacklist.contains c.id
  | none => false

/--
Embedding of `checkAdminRights`: membership of the sender in the
administrator-id list fetched at startup.
-/
def checkAdminRights (admins : List Int) (senderId : Int) : Bool :=
  admins.contains senderId

/--
Embedding of `handleMedia(message)` as the ordered list of gateway / store
effects it performs.  Source order: serialize first (a `SerializationError`
is replied and the handler returns); only then, for a non-admin, the
blacklist check; the `logInfo` call is logging, not a gateway effect.
The crash branch mirrors the source: a non-`SerializationError` is swallowed
by the `catch` without returning, `serializedMessage` stays `null`, and the
`if (serializedMessage)` guard skips everything.
-/
def handleMedia (admins blacklist : List Int) (ownerId : Int) (m : Message) :
    List Effect :=
  let isAdmin := checkAdminRights admins m.fromUser.id
  match serializeMessage m with
  | .err reason => [.sendText m.chat.id reason]
  | .crash => []
  | .ok s =>
    if isAdmin then
      [.storeMessage (some s), .deleteMessage m.chat.id m.message_id]
    else if checkIfBlacklisted blacklist m then
      [.sendText m.chat.id "This content is not welcome here :("]
    else
      [.sendSerialized ownerId (addAdminReplyMarkup s),
       .sendText m.chat.id "Thanks for your contribution!"]

/--
A callback query, restricted to the fields `index.mjs` reads.
-/
structure CallbackQuery where
  id : String
  fromUser : User
  data : Option String := none
  message : Message
deriving DecidableEq, Repr

/--
Embedding of `handleCallbackQuery(callbackQuery)` as its ordered effect list.
Source shape: admin + `data === 'accept'` re-runs `serializeMessage`; a
`SerializationError` is replied and the handler RETURNS, skipping both the
prompt deletion and `answerCallbackQuery`; the crash branch stores `null`
(the `catch` swallows a non-`SerializationError` without returning and there
is no null guard here, unlike `handleMedia`).
-/
def handleCallbackQuery (admins : List Int) (cq : CallbackQuery) :
    List Effect :=
  let isAdmin := checkAdminRights admins cq.fromUser.id
  if isAdmin then
    if cq.data = some "accept" then
      match serializeMessage cq.message with
      | .err reason => [.sendText cq.message.chat.id reason]
      | .ok s =>
        [.storeMessage (some s),
         .deleteMessage cq.message.chat.id cq.message.message_id,
         .answerCallbackQuery cq.id]
      | .crash =>
        [.storeMessage none,
         .deleteMessage cq.message.chat.id cq.message.message_id,
         .answerCallbackQuery cq.id]
    else
      [.deleteMessage cq.message.chat.id cq.message.message_id,
       .answerCallbackQuery cq.id]
  else
    [.answerCallbackQuery cq.id]

/--
Count of `answerCallbackQuery` effects in an effect list.
-/
def answerCount (es : List Effect) : Nat :=
  es.countP fun e => match e with
    | .answerCallbackQuery _ => true
    | _ => false

/--
A stored queue record: the nedb document `{type: 'message', message: ...}`
plus the store-assigned identifier.  The payload is `Option Serialized`
because `handleCallbackQuery`'s crash path can store `null`.
-/
structure QueueRecord where
  docId : Nat
  message : Option Serialized
deriving DecidableEq, Repr

/--
The nedb datastore, restricted to the `type: 'message'` records (the only
kind this program inserts).  `docs` is the stable enumeration order used by
`findOne().skip(n)`; `nextId` generates fresh identifiers at insert time.
-/
structure Db where
  docs : List QueueRecord
  nextId : Nat
deriving DecidableEq, Repr

/-- The empty store. -/
def dbEmpty : Db := ⟨[], 0⟩

/-- Embedding of the backlog query `db.count({type: 'message'})`. -/
def dbCount (db : Db) : Nat := db.docs.length

/--
Embedding of `storeSerializedMessage` / `db.insert({type: 'message', message})`:
appends a record under a fresh store-assigned identifier.
-/
def dbInsert (db : Db) (m : Option Serialized) : Db :=
  { docs := db.docs ++ [⟨db.nextId, m⟩], nextId := db.nextId + 1 }

/-- Insert a list of messages in order. -/
def dbInsertMany (db : Db) (ms : List (Option Serialized)) : Db :=
  ms.foldl dbInsert db

/--
Embedding of `db.remove({_id: id})`: removes the record(s) whose identifier
matches (exactly one, since store identifiers are unique).
-/
def dbRemove (db : Db) (id : Nat) : Db :=
  { db with docs := db.docs.filter fun d => d.docId != id }

/--
Well-formedness of the store: identifiers are pairwise distinct and below
the fresh-id counter.  This holds for every store built by `dbInsert` /
`dbRemove` from the empty store.
-/
structure DbInv (db : Db) : Prop where
  nodup : (db.docs.map QueueRecord.docId).Nodup
  bounded : ∀ d ∈ db.docs, d.docId < db.nextId

/--
Embedding of `postRandomMessage()`: reads the backlog count; when positive,
draws `Math.floor(Math.random() * count)`, skips that many records, sends the
found record and removes it by identifier.  `r` is the `Math.random()` draw;
the result pairs the new store with the record sent (if any).  The impossible
out-of-range lookup (only reachable when `r` lies outside `[0,1)`) is a
no-op here; in the source it would be a `TypeError` on `doc.message`.
-/
def postRandomMessage (db : Db) (r : ℚ) : Db × Option QueueRecord :=
  let count := dbCount db
  if 0 < count then
    match db.docs[(⌊r * count⌋).toNat]? with
    | some doc => (dbRemove db doc.docId, some doc)
    | none => (db, none)
  else
    (db, none)

/--
Embedding of `postRandomMessages(count)`: a loop of `count` iterations of
`postRandomMessage`, one `Math.random()` draw per iteration; `rs` lists the
draws, so `rs.length` is the requested count.  Returns the final store and
the records sent, in order.
-/
def postRandomMessages (db : Db) (rs : List ℚ) : Db × List QueueRecord :=
  match rs with
  | [] => (db, [])
  | r :: rest =>
    let step := postRandomMessage db r
    let recur := postRandomMessages step.1 rest
    (recur.1, step.2.toList ++ recur.2)

/--
Scheduler configuration: the config values consumed by `handlePostTimer` /
`schedulePostTimer`, as exact rationals.
-/
structure TickConfig where
  minHour : ℚ
  maxHour : ℚ
  minPostCount : ℚ
  maxPostCount : ℚ
  postInterval : ℚ
  postIntervalOffset : ℚ
  basePostChance : ℚ
  basePostChancePostCount : ℚ
deriving DecidableEq, Repr

/-- The default configuration values of the second script revision. -/
def defaultConfig : TickConfig :=
  { minHour := 5, maxHour := 19, minPostCount := 4, maxPostCount := 5,
    postInterval := 5400000, postIntervalOffset := 540000,
    basePostChance := 1/4, basePostChancePostCount := 25 }

/--
The adaptive posting chance
`Math.min(BASE_POST_CHANCE * (count / BASE_POST_CHANCE_POST_COUNT), 1)`.
-/
def postChanceVal (basePostChance basePostChancePostCount : ℚ) (count : ℕ) : ℚ :=
  min (basePostChance * (count / basePostChancePostCount)) 1

/-- The posting chance under a configuration. -/
def postChance (cfg : TickConfig) (count : ℕ) : ℚ :=
  postChanceVal cfg.basePostChance cfg.basePostChancePostCount count

/-- JavaScript `Math.round`: halves round toward positive infinity. -/
def jsRound (x : ℚ) : ℤ := ⌊x + 1/2⌋

/-- Outcome of one run of the tick handler body (inside the `try`). -/
inductive TickOutcome where
  | published (batch : ℤ)
  | skipped
  | errored
deriving DecidableEq, Repr

/-- The random draws a tick consumes. -/
structure TickDraws where
  chanceDraw : ℚ
  countDraw : ℚ
  delayDraw : ℚ
deriving DecidableEq, Repr

/--
The `try` body of `handlePostTimer`: reads the backlog (`countResult` is
`.error` when `db.count` rejects), computes the chance, applies the
strict-inequality hour gate and the chance roll, and when triggered requests
`Math.round(MIN_POST_COUNT + Math.random() * (MAX_POST_COUNT - MIN_POST_COUNT))`
items (`publishFails` injects a failure of the publish itself).
-/
def tickBody (cfg : TickConfig) (countResult : Except Unit ℕ) (hour : ℚ)
    (d : TickDraws) (publishFails : Bool) : TickOutcome :=
  match countResult with
  | .error _ => .errored
  | .ok count =>
    if cfg.minHour < hour ∧ hour < cfg.maxHour ∧ d.chanceDraw < postChance cfg count then
      if publishFails then .errored
      else .published (jsRound (cfg.minPostCount + d.countDraw * (cfg.maxPostCount - cfg.minPostCount)))
    else
      .skipped

/--
Scheduler timer state.  `postTimer` is the module-level variable (possibly a
stale handle of a timer that already fired); `armed` lists the timers armed
in the runtime and not yet fired or cleared, each with its delay; `fired`
records timers that have fired; `nextId` generates fresh timer handles.
-/
structure SchedState where
  postTimer : Option Nat
  armed : List (Nat × ℚ)
  fired : List Nat
  nextId : Nat
deriving DecidableEq, Repr

/-- Identifiers of the currently armed timers. -/
def armedIds (s : SchedState) : List Nat := s.armed.map Prod.fst

/--
Runtime `clearTimeout(t)`: disarms timer `t`; a no-op on a timer that
already fired or was already cleared.
-/
def clearTimer (s : SchedState) (t : Nat) : SchedState :=
  { s with armed := s.armed.filter fun e => e.1 != t }

/--
Runtime `setTimeout(handlePostTimer, delay)`: arms a fresh timer and returns
its handle.
-/
def setTimer (s : SchedState) (delay : ℚ) : SchedState × Nat :=
  ({ s with armed := (s.nextId, delay) :: s.armed, nextId := s.nextId + 1 }, s.nextId)

/--
Embedding of `schedulePostTimer()`:
`if (postTimer) clearTimeout(postTimer); postTimer = setTimeout(handlePostTimer, POST_INTERVAL + POST_INTERVAL_OFFSET * Math.random())`.
`delayDraw` is the `Math.random()` draw.
-/
def schedulePostTimer (cfg : TickConfig) (delayDraw : ℚ) (s : SchedState) : SchedState :=
  let s1 := match s.postTimer with
    | some t => clearTimer s t
    | none => s
  let s2 := setTimer s1 (cfg.postInterval + cfg.postIntervalOffset * delayDraw)
  { s2.1 with postTimer := some s2.2 }

/--
Embedding of one invocation of `async function handlePostTimer()` on
scheduler state `s`: the `try` body runs (possibly failing), and the
`finally` clause runs `schedulePostTimer()` unconditionally — including when
`db.count` rejects (`countResult = .error`) or the publish fails
(`publishFails = true`).
-/
def handlePostTimer (cfg : TickConfig) (countResult : Except Unit ℕ) (hour : ℚ)
    (d : TickDraws) (publishFails : Bool) (s : SchedState) :
    TickOutcome × SchedState :=
  (tickBody cfg countResult hour d publishFails,
   schedulePostTimer cfg d.delayDraw s)

/--
The runtime firing armed timer `t`: the timer is consumed (disarmed and
recorded as fired; `postTimer` still holds the stale handle) and the
callback `handlePostTimer` runs, whose `finally` reschedules.
-/
def fireTick (cfg : TickConfig) (countResult : Except Unit ℕ) (hour : ℚ)
    (d : TickDraws) (publishFails : Bool) (t : Nat) (s : SchedState) :
    TickOutcome × SchedState :=
  handlePostTimer cfg countResult hour d publishFails
    { s with armed := s.armed.filter (fun e => e.1 != t), fired := t :: s.fired }

/--
Embedding of the `/random_post` admin-command branch of `handleCommand`:
`schedulePostTimer(); return postRandomMessages(count);` — the cancel-and-
replace of the pending tick happens BEFORE the publish.  `rs` lists the
per-iteration draws of the publish loop (`rs.length` = the requested count).
-/
def randomPostCommand (cfg : TickConfig) (delayDraw : ℚ) (rs : List ℚ)
    (s : SchedState) (db : Db) : SchedState × Db × List QueueRecord :=
  let s' := schedulePostTimer cfg delayDraw s
  let post := postRandomMessages db rs
  (s', post.1, post.2)

/--
One step of the scheduler's event system: either an armed timer fires (with
arbitrary tick inputs), or a manual `/random_post` trigger reschedules.
-/
inductive SchedStep (cfg : TickConfig) : SchedState → SchedState → Prop where
  | fire (s : SchedState) (countResult : Except Unit ℕ) (hour : ℚ)
      (d : TickDraws) (publishFails : Bool) (t : Nat)
      (h : t ∈ armedIds s) :
      SchedStep cfg s (fireTick cfg countResult hour d publishFails t s).2
  | manual (s : SchedState) (delayDraw : ℚ) :
      SchedStep cfg s (schedulePostTimer cfg delayDraw s)

/--
Scheduler invariant: every armed timer is the one `postTimer` tracks (so at
most one timer is armed, by `nodup`), and every handle ever issued is below
the fresh-handle counter.
-/
structure SchedInv (s : SchedState) : Prop where
  nodup : (armedIds s).Nodup
  tracked : ∀ e ∈ s.armed, s.postTimer = some e.1
  timerLt : ∀ t, s.postTimer = some t → t < s.nextId
  firedLt : ∀ t ∈ s.fired, t < s.nextId

/--
Under the invariant, rescheduling leaves exactly the fresh timer armed, with
the freshly drawn delay; the stale handle (if any) is cleared first.
-/
theorem schedulePostTimer_armed (cfg : TickConfig) (d : ℚ) (s : SchedState)
    (inv : SchedInv s) :
    (schedulePostTimer cfg d s).armed
        = [(s.nextId, cfg.postInterval + cfg.postIntervalOffset * d)] ∧
    (schedulePostTimer cfg d s).postTimer = some s.nextId ∧
    (schedulePostTimer cfg d s).nextId = s.nextId + 1 ∧
    (schedulePostTimer cfg d s).fired = s.fired := by
  have harmed : (match s.postTimer with
      | some t => clearTimer s t
      | none => s).armed = [] := by
    cases hpt : s.postTimer with
    | none =>
      simp only []
      rw [List.eq_nil_iff_forall_not_mem]
      intro e he
      have := inv.tracked e he
      rw [hpt] at this
      exact Option.noConfusion this
    | some t =>
      simp only [clearTimer]
      rw [List.filter_eq_nil_iff]
      intro e he
      have := inv.tracked e he
      rw [hpt] at this
      have : e.1 = t := by injection this.symm
      simp [this]
  have hnid : (match s.postTimer with
      | some t => clearTimer s t
      | none => s).nextId = s.nextId := by
    cases s.postTimer <;> rfl
  have hfired : (match s.postTimer with
      | some t => clearTimer s t
      | none => s).fired = s.fired := by
    cases s.postTimer <;> rfl
  refine ⟨?_, ?_, ?_, ?_⟩ <;>
    simp [schedulePostTimer, setTimer, harmed, hnid, hfired]

/-- Unfolding equation for `armedIds`. -/
theorem armedIds_def (s : SchedState) : armedIds s = s.armed.map Prod.fst := rfl

/-- Rescheduling preserves the scheduler invariant. -/
theorem schedInv_schedule (cfg : TickConfig) (d : ℚ) (s : SchedState)
    (inv : SchedInv s) : SchedInv (schedulePostTimer cfg d s) := by
  obtain ⟨ha, hp, hn, hf⟩ := schedulePostTimer_armed cfg d s inv
  constructor
  · rw [armedIds_def, ha]; simp
  · intro e he
    rw [ha] at he
    simp at he
    rw [hp, he]
  · intro t ht
    rw [hp] at ht
    have h1 := Option.some.inj ht
    rw [hn]
    omega
  · intro t ht
    rw [hf] at ht
    have := inv.firedLt t ht
    rw [hn]
    omega

/-- The pre-handler part of a timer firing preserves the invariant. -/
theorem schedInv_consume (s : SchedState) (t : Nat) (inv : SchedInv s)
    (ht : t ∈ armedIds s) :
    SchedInv { s with armed := s.armed.filter (fun e => e.1 != t),
                      fired := t :: s.fired } := by
  constructor
  · rw [armedIds_def]
    exact List.Nodup.sublist
      (List.Sublist.map Prod.fst (List.filter_sublist s.armed)) inv.nodup
  · intro e he
    exact inv.tracked e (List.mem_of_mem_filter he)
  · intro u hu
    exact inv.timerLt u hu
  · intro u hu
    rcases List.mem_cons.mp hu with h | h
    · subst h
      obtain ⟨e, he, heq⟩ := List.mem_map.mp ht
      have := inv.tracked e he
      exact inv.timerLt u (heq ▸ this)
    · exact inv.firedLt u h

/-- Properties of a timer handle that can no longer fire. -/
def TimerGone (u : Nat) (s : SchedState) : Prop :=
  u ∉ armedIds s ∧ u ∉ s.fired ∧ u < s.nextId

/-- Rescheduling never resurrects a dead handle. -/
theorem timerGone_schedule (cfg : TickConfig) (d : ℚ) (u : Nat) (s : SchedState)
    (h : TimerGone u s) : TimerGone u (schedulePostTimer cfg d s) := by
  obtain ⟨h1, h2, h3⟩ := h
  have hsub : armedIds (match s.postTimer with
      | some t => clearTimer s t
      | none => s) ⊆ armedIds s := by
    cases s.postTimer with
    | none => exact fun x hx => hx
    | some t =>
      intro x hx
      obtain ⟨e, he, heq⟩ := List.mem_map.mp hx
      exact List.mem_map.mpr ⟨e, List.mem_of_mem_filter he, heq⟩
  have hnid : (match s.postTimer with
      | some t => clearTimer s t
      | none => s).nextId = s.nextId := by
    cases s.postTimer <;> rfl
  have hfired : (match s.postTimer with
      | some t => clearTimer s t
      | none => s).fired = s.fired := by
    cases s.postTimer <;> rfl
  refine ⟨?_, ?_, ?_⟩
  · intro hmem
    simp only [schedulePostTimer, setTimer, armedIds, List.map_cons,
      List.mem_cons] at hmem
    rcases hmem with h | h
    · rw [hnid] at h; omega
    · exact h1 (hsub h)
  · simpa [schedulePostTimer, setTimer, hfired] using h2
  · simp only [schedulePostTimer, setTimer, hnid]
    omega

/-- No step of the event system resurrects a dead handle. -/
theorem timerGone_step (cfg : TickConfig) (u : Nat) (s s' : SchedState)
    (h : TimerGone u s) (hs : SchedStep cfg s s') : TimerGone u s' := by
  obtain ⟨h1, h2, h3⟩ := h
  cases hs with
  | fire cr hour d pf t ht =>
    apply timerGone_schedule
    have htu : t ≠ u := fun he => h1 (he ▸ ht)
    refine ⟨?_, ?_, h3⟩
    · intro hmem
      apply h1
      obtain ⟨e, he, heq⟩ := List.mem_map.mp hmem
      exact List.mem_map.mpr ⟨e, List.mem_of_mem_filter he, heq⟩
    · intro hmem
      rcases List.mem_cons.mp hmem with h | h
      · exact htu h.symm
      · exact h2 h
  | manual d =>
    exact timerGone_schedule cfg d u s ⟨h1, h2, h3⟩

/-- A dead handle stays dead along every run of the event system. -/
theorem timerGone_steps (cfg : TickConfig) (u : Nat) (s s' : SchedState)
    (h : TimerGone u s) (hs : Relation.ReflTransGen (SchedStep cfg) s s') :
    TimerGone u s' := by
  induction hs with
  | refl => exact h
  | tail _ hstep ih => exact timerGone_step cfg u _ _ ih hstep

/--
C5: every invocation of the scheduled tick handler schedules exactly one
next tick — the armed-timer list afterwards is the singleton fresh handle
with delay `postInterval + postIntervalOffset * uniform(0,1)` — in every
case: the backlog read may have failed (`countResult = .error`), the publish
may have failed (`publishFails`), the hour/chance gate may or may not have
triggered; the `finally` clause reschedules regardless, so a failed tick
never stops the scheduler.
-/
theorem tick_always_reschedules (cfg : TickConfig) (countResult : Except Unit ℕ)
    (hour : ℚ) (d : TickDraws) (publishFails : Bool) (s : SchedState)
    (inv : SchedInv s) :
    (handlePostTimer cfg countResult hour d publishFails s).2.postTimer
        = some s.nextId ∧
    (handlePostTimer cfg countResult hour d publishFails s).2.armed
        = [(s.nextId, cfg.postInterval + cfg.postIntervalOffset * d.delayDraw)] := by
  obtain ⟨ha, hp, _, _⟩ := schedulePostTimer_armed cfg d.delayDraw s inv
  exact ⟨hp, ha⟩

/-- A concrete scheduler state with one armed timer, handle 0. -/
def sampleSched : SchedState := ⟨some 0, [(0, 100)], [], 1⟩

/-- The sample state satisfies the scheduler invariant. -/
theorem sampleSched_inv : SchedInv sampleSched := by
  constructor
  · decide
  · intro e he
    simp [sampleSched] at he
    simp [sampleSched, he]
  · intro t ht
    simp [sampleSched] at ht ⊢
    omega
  · intro t ht
    simp [sampleSched] at ht

/--
Witness for C5: a tick whose backlog read failed and whose publish failed
still arms exactly one fresh timer with the drawn delay.
-/
theorem tick_always_reschedules_witness :
    (handlePostTimer defaultConfig (.error ()) 12 ⟨0, 0, 1/2⟩ true
        sampleSched).2.postTimer = some 1 ∧
    (handlePostTimer defaultConfig (.error ()) 12 ⟨0, 0, 1/2⟩ true
        sampleSched).2.armed
      = [(1, defaultConfig.postInterval + defaultConfig.postIntervalOffset * (1/2))] :=
  tick_always_reschedules defaultConfig (.error ()) 12 ⟨0, 0, 1/2⟩ true
    sampleSched sampleSched_inv

/--
C6: the manual `/random_post` trigger first cancels-and-replaces the pending
tick handle (before any publishing happens — the state component of
`randomPostCommand` is exactly `schedulePostTimer`), after which the old
handle is disarmed, exactly one timer is armed, and along every subsequent
run of the event system the superseded handle never becomes armed again and
never fires; so the naturally-due tick it replaced can never contribute a
second batch.
-/
theorem manual_trigger_supersedes (cfg : TickConfig) (delayDraw : ℚ)
    (rs : List ℚ) (s : SchedState) (db : Db) (t : Nat)
    (inv : SchedInv s) (hpt : s.postTimer = some t) (hnf : t ∉ s.fired) :
    (randomPostCommand cfg delayDraw rs s db).1
        = schedulePostTimer cfg delayDraw s ∧
    t ∉ armedIds (randomPostCommand cfg delayDraw rs s db).1 ∧
    (armedIds (randomPostCommand cfg delayDraw rs s db).1).length = 1 ∧
    ∀ s'', Relation.ReflTransGen (SchedStep cfg)
        (randomPostCommand cfg delayDraw rs s db).1 s'' →
      t ∉ armedIds s'' ∧ t ∉ s''.fired := by
  obtain ⟨ha, hp, hn, hf⟩ := schedulePostTimer_armed cfg delayDraw s inv
  have htlt : t < s.nextId := inv.timerLt t hpt
  have hstate : (randomPostCommand cfg delayDraw rs s db).1
      = schedulePostTimer cfg delayDraw s := rfl
  have hgone : TimerGone t (schedulePostTimer cfg delayDraw s) := by
    refine ⟨?_, ?_, ?_⟩
    · rw [armedIds_def, ha]
      simp
      omega
    · rw [hf]; exact hnf
    · rw [hn]; omega
  refine ⟨hstate, ?_, ?_, ?_⟩
  · rw [hstate]; exact hgone.1
  · rw [hstate, armedIds_def, ha]; simp
  · intro s'' hs
    rw [hstate] at hs
    have := timerGone_steps cfg t _ s'' hgone hs
    exact ⟨this.1, this.2.1⟩

/--
Witness for C6: at a concrete state with pending handle 0, the manual
trigger disarms handle 0, leaves exactly one armed timer, and after a
further manual step handle 0 has still not fired.
-/
theorem manual_trigger_supersedes_witness :
    0 ∉ armedIds (randomPostCommand defaultConfig 0 [] sampleSched dbEmpty).1 ∧
    (armedIds (randomPostCommand defaultConfig 0 [] sampleSched dbEmpty).1).length = 1 ∧
    0 ∉ (schedulePostTimer defaultConfig 1
          (randomPostCommand defaultConfig 0 [] sampleSched dbEmpty).1).fired := by
  have h := manual_trigger_supersedes defaultConfig 0 [] sampleSched dbEmpty 0
    sampleSched_inv rfl (by simp [sampleSched])
  refine ⟨h.2.1, h.2.2.1, ?_⟩
  have := h.2.2.2 _ (Relation.ReflTransGen.single
    (@SchedStep.manual defaultConfig _ 1))
  exact this.2

/--
C8: a scheduled tick publishes only under the strict hour gate
`minHour < hour < maxHour` (the boundary hours themselves never publish) and
a chance roll `uniform(0,1) < chance`; a triggered publish requests
`round(minPostCount + uniform(0,1) * (maxPostCount - minPostCount))` items.
-/
theorem hour_gate (cfg : TickConfig) (count : ℕ) (hour : ℚ) (d : TickDraws) :
    (∀ publishFails, tickBody cfg (.ok count) hour d publishFails = .skipped ↔
        ¬(cfg.minHour < hour ∧ hour < cfg.maxHour ∧
          d.chanceDraw < postChance cfg count)) ∧
    (∀ n : ℤ, tickBody cfg (.ok count) hour d false = .published n ↔
        ((cfg.minHour < hour ∧ hour < cfg.maxHour ∧
          d.chanceDraw < postChance cfg count) ∧
         n = jsRound (cfg.minPostCount +
               d.countDraw * (cfg.maxPostCount - cfg.minPostCount)))) ∧
    ((hour = cfg.minHour ∨ hour = cfg.maxHour) →
      ∀ publishFails, tickBody cfg (.ok count) hour d publishFails = .skipped) := by
  refine ⟨?_, ?_, ?_⟩
  · intro pf
    by_cases hg : cfg.minHour < hour ∧ hour < cfg.maxHour ∧
        d.chanceDraw < postChance cfg count
    · cases pf <;> simp [tickBody, hg]
    · simp [tickBody, hg]
  · intro n
    by_cases hg : cfg.minHour < hour ∧ hour < cfg.maxHour ∧
        d.chanceDraw < postChance cfg count
    · simp [tickBody, hg]
      exact eq_comm
    · simp [tickBody, hg]
  · rintro (h | h) pf
    · have : ¬cfg.minHour < hour := by rw [h]; exact lt_irrefl _
      simp [tickBody, this]
    · have : ¬hour < cfg.maxHour := by rw [h]; exact lt_irrefl _
      simp [tickBody, this]

/--
Witness for C8: under the default configuration, a tick at the lower
boundary hour (hour = minHour = 5) never publishes, even with a backlog of
1000 and a zero chance draw, and a mid-window tick at hour 12 with chance
draw 0 and count draw 1/2 publishes round(4 + 1/2 * (5 - 4)) = 5 items.
-/
theorem hour_gate_witness :
    tickBody defaultConfig (.ok 1000) 5 ⟨0, 1/2, 0⟩ false = .skipped ∧
    tickBody defaultConfig (.ok 1000) 12 ⟨0, 1/2, 0⟩ false = .published 5 := by
  constructor
  · exact (hour_gate defaultConfig 1000 5 ⟨0, 1/2, 0⟩).2.2
      (Or.inl (by norm_num [defaultConfig])) false
  · exact ((hour_gate defaultConfig 1000 12 ⟨0, 1/2, 0⟩).2.1 5).mpr
      ⟨by norm_num [defaultConfig, postChance, postChanceVal],
       by norm_num [defaultConfig, jsRound]⟩

/--
C2: the adaptive posting chance
`min(basePostChance * (backlog / basePostChanceBacklog), 1)` is monotonically
non-decreasing in the backlog (for a non-negative base chance and positive
normalization constant), never exceeds 1, and is 0 at backlog 0; with base
chance 0.25 and normalization 25, backlog 25 gives 0.25 and backlog 200
gives 1 (capped).
-/
theorem postChance_spec (basePostChance basePostChancePostCount : ℚ)
    (hbc : 0 ≤ basePostChance) (hbb : 0 < basePostChancePostCount) :
    (∀ c1 c2 : ℕ, c1 ≤ c2 →
      postChanceVal basePostChance basePostChancePostCount c1 ≤
        postChanceVal basePostChance basePostChancePostCount c2) ∧
    (∀ c : ℕ, postChanceVal basePostChance basePostChancePostCount c ≤ 1) ∧
    postChanceVal basePostChance basePostChancePostCount 0 = 0 ∧
    postChanceVal (1/4) 25 25 = 1/4 ∧
    postChanceVal (1/4) 25 200 = 1 := by
  refine ⟨?_, ?_, ?_, ?_, ?_⟩
  · intro c1 c2 h
    unfold postChanceVal
    apply min_le_min _ le_rfl
    apply mul_le_mul_of_nonneg_left _ hbc
    apply (div_le_div_iff_of_pos_right hbb).mpr
    exact_mod_cast h
  · intro c
    exact min_le_right _ _
  · norm_num [postChanceVal]
  · norm_num [postChanceVal, min_def]
  · norm_num [postChanceVal, min_def]

/--
Witness for C2: the two quoted data points, obtained from the theorem at the
default base chance 1/4 and normalization constant 25, together with
monotonicity instantiated at backlogs 25 ≤ 200.
-/
theorem postChance_spec_witness :
    postChanceVal (1/4) 25 25 = 1/4 ∧ postChanceVal (1/4) 25 200 = 1 ∧
    postChanceVal (1/4) 25 25 ≤ postChanceVal (1/4) 25 200 := by
  have h := postChance_spec (1/4) 25 (by norm_num) (by norm_num)
  exact ⟨h.2.2.2.1, h.2.2.2.2, h.1 25 200 (by norm_num)⟩

/--
C1: `serializeMessage` evaluates its rules in source order — a media-group
marker rejects regardless of other content; otherwise a photo succeeds with
the file handle of the FIRST photo-size entry; otherwise video, then
animation; otherwise text-only rejects; otherwise the no-allowed-content
rejection.  Whenever it succeeds the produced kind matches the media type
present, and a successful result excludes every rejection.
-/
theorem serialize_rules (m : Message) :
    (strTruthy m.media_group_id = true →
      serializeMessage m = .err "Media groups are not supported yet :(") ∧
    (strTruthy m.media_group_id = false → ∀ p ps, m.photo = some (p :: ps) →
      serializeMessage m = .ok ⟨"sendPhoto", p.file_id, pickMessageProps m⟩) ∧
    (strTruthy m.media_group_id = false → m.photo = none → ∀ v, m.video = some v →
      serializeMessage m = .ok ⟨"sendVideo", v.file_id, pickMessageProps m⟩) ∧
    (strTruthy m.media_group_id = false → m.photo = none → m.video = none →
      ∀ a, m.animation = some a →
      serializeMessage m = .ok ⟨"sendAnimation", a.file_id, pickMessageProps m⟩) ∧
    (strTruthy m.media_group_id = false → m.photo = none → m.video = none →
      m.animation = none → strTruthy m.text = true →
      serializeMessage m = .err "No text only content :(") ∧
    (strTruthy m.media_group_id = false → m.photo = none → m.video = none →
      m.animation = none → strTruthy m.text = false →
      serializeMessage m = .err "No allowed content found :(") ∧
    (∀ s, serializeMessage m = .ok s →
      ((s.method = "sendPhoto" → m.photo ≠ none) ∧
       (s.method = "sendVideo" → m.video ≠ none) ∧
       (s.method = "sendAnimation" → m.animation ≠ none) ∧
       strTruthy m.media_group_id = false) ∧
      ∀ r, serializeMessage m ≠ .err r) := by
  refine ⟨?_, ?_, ?_, ?_, ?_, ?_, ?_⟩
  · intro h
    simp [serializeMessage, h]
  · intro h p ps hp
    simp [serializeMessage, h, hp]
  · intro h hp v hv
    simp [serializeMessage, h, hp, hv]
  · intro h hp hv a hA
    simp [serializeMessage, h, hp, hv, hA]
  · intro h hp hv hA ht
    simp [serializeMessage, h, hp, hv, hA, ht]
  · intro h hp hv hA ht
    simp [serializeMessage, h, hp, hv, hA, ht]
  · intro s hs
    constructor
    · unfold serializeMessage at hs
      by_cases hg : strTruthy m.media_group_id
      · simp [hg] at hs
      · rcases hp : m.photo with _ | ps
        · rcases hv : m.video with _ | v
          · rcases hA : m.animation with _ | a
            · by_cases ht : strTruthy m.text <;>
                simp [hg, hp, hv, hA, ht] at hs
            · simp [hg, hp, hv, hA] at hs
              subst hs
              refine ⟨?_, ?_, ?_, by simpa using hg⟩
              · intro hm; simp at hm
              · intro hm; simp at hm
              · intro _; simp [hA]
          · simp [hg, hp, hv] at hs
            subst hs
            refine ⟨?_, ?_, ?_, by simpa using hg⟩
            · intro hm; simp at hm
            · intro _; simp [hv]
            · intro hm; simp at hm
        · rcases ps with _ | ⟨p, rest⟩
          · simp [hg, hp] at hs
          · simp [hg, hp] at hs
            subst hs
            refine ⟨?_, ?_, ?_, by simpa using hg⟩
            · intro _; simp [hp]
            · intro hm; simp at hm
            · intro hm; simp at hm
    · intro r
      rw [hs]
      intro hcontra
      exact SerResult.noConfusion hcontra

/-- A concrete two-variant photo submission from an ordinary user. -/
def photoMsg : Message :=
  { message_id := 1, chat := ⟨10⟩, fromUser := ⟨100⟩,
    photo := some [⟨"small"⟩, ⟨"large"⟩], caption := some "nice" }

/--
Witness for C1: the concrete photo message with size list
`[small, large]` serializes to `sendPhoto` with the FIRST (smallest-variant)
handle.
-/
theorem serialize_rules_witness :
    serializeMessage photoMsg
      = .ok ⟨"sendPhoto", "small", pickMessageProps photoMsg⟩ :=
  (serialize_rules photoMsg).2.1 rfl ⟨"small"⟩ [⟨"large"⟩] rfl

/--
C9: `pickMessageProps` on a message carrying a (nonzero) forward timestamp
yields the empty property bundle regardless of caption content; on a
non-forwarded message it yields exactly the caption / parse-mode /
caption-entities fields present on the message.
-/
theorem pickProps_spec (m : Message) :
    (∀ fd, m.forward_date = some fd → fd ≠ 0 →
      pickMessageProps m = emptyProps) ∧
    (m.forward_date = none →
      pickMessageProps m =
        { caption := m.caption, parse_mode := m.parse_mode,
          caption_entities := m.caption_entities }) := by
  constructor
  · intro fd hfd hnz
    simp [pickMessageProps, numTruthy, hfd, hnz, emptyProps]
  · intro h
    simp [pickMessageProps, numTruthy, h]

/-- A concrete forwarded message with a caption. -/
def fwdMsg : Message :=
  { message_id := 4, chat := ⟨10⟩, fromUser := ⟨100⟩,
    photo := some [⟨"f"⟩], caption := some "cap", parse_mode := some "HTML",
    forward_date := some 1700000000 }

/--
Witness for C9: a forwarded captioned message yields the empty bundle.
-/
theorem pickProps_spec_witness : pickMessageProps fwdMsg = emptyProps :=
  (pickProps_spec fwdMsg).1 1700000000 rfl (by norm_num)

/--
A grouped-media submission from an ordinary user whose forward-origin chat
is blacklisted: the media-group marker makes encoding fail.
-/
def blGroupMsg : Message :=
  { message_id := 2, chat := ⟨20⟩, fromUser := ⟨100⟩,
    media_group_id := some "g1", photo := some [⟨"f1"⟩],
    forward_from_chat := some ⟨555⟩ }

/--
Counterexample to C3: a non-privileged sender whose forward-origin chat is
blacklisted does NOT always get the 'not welcome' reply — `handleMedia` runs
the encoder first, so when encoding fails (here: a media-group marker) the
encoding-rejection reply is sent and the blacklist refusal never surfaces.
-/
theorem blacklist_not_first_cex :
    checkAdminRights [1] blGroupMsg.fromUser.id = false ∧
    checkIfBlacklisted [555] blGroupMsg = true ∧
    handleMedia [1] [555] 1 blGroupMsg
      = [.sendText 20 "Media groups are not supported yet :("] ∧
    Effect.sendText 20 "This content is not welcome here :("
      ∉ handleMedia [1] [555] 1 blGroupMsg := by
  refine ⟨by decide, by decide, by decide, by decide⟩

/--
C3 (amended): for a non-privileged sender whose forward-origin chat is
blacklisted and whose message ENCODES SUCCESSFULLY, `handleMedia` replies
'not welcome' exactly once and stops — nothing is stored, nothing is
forwarded to the owner, no other reply is sent.  (The blacklist refusal is
applied after a successful encoding, not before the encoding outcome.)
-/
theorem blacklist_refusal (admins blacklist : List Int) (ownerId : Int)
    (m : Message) (s : Serialized)
    (hna : checkAdminRights admins m.fromUser.id = false)
    (hbl : checkIfBlacklisted blacklist m = true)
    (hok : serializeMessage m = .ok s) :
    handleMedia admins blacklist ownerId m
      = [.sendText m.chat.id "This content is not welcome here :("] := by
  simp [handleMedia, hok, hna, hbl]

/--
A concrete non-grouped photo submission from an ordinary user with a
blacklisted forward-origin chat.
-/
def blPhotoMsg : Message :=
  { message_id := 5, chat := ⟨20⟩, fromUser := ⟨100⟩,
    photo := some [⟨"f1"⟩], forward_from_chat := some ⟨555⟩ }

/--
Witness for the amended C3: the blacklisted photo submission gets exactly
the single 'not welcome' reply.
-/
theorem blacklist_refusal_witness :
    handleMedia [1] [555] 1 blPhotoMsg
      = [.sendText 20 "This content is not welcome here :("] :=
  blacklist_refusal [1] [555] 1 blPhotoMsg
    ⟨"sendPhoto", "f1", pickMessageProps blPhotoMsg⟩ rfl rfl rfl

/--
C10: the blacklist is never consulted for a privileged sender — for every
administrator list containing the sender and EVERY blacklist (in particular
one containing the message's forward-origin chat), a successfully encoded
submission is stored and the original message deleted, with no other effect.
-/
theorem admin_bypasses_blacklist (admins blacklist : List Int) (ownerId : Int)
    (m : Message) (s : Serialized)
    (ha : checkAdminRights admins m.fromUser.id = true)
    (hok : serializeMessage m = .ok s) :
    handleMedia admins blacklist ownerId m
      = [.storeMessage (some s), .deleteMessage m.chat.id m.message_id] := by
  simp [handleMedia, hok, ha]

/--
A photo submission from the administrator with id 1 whose forward-origin
chat 555 is blacklisted.
-/
def adminBlMsg : Message :=
  { message_id := 6, chat := ⟨20⟩, fromUser := ⟨1⟩,
    photo := some [⟨"f9"⟩], forward_from_chat := some ⟨555⟩ }

/--
Witness for C10: with the forward-origin chat blacklisted, the privileged
submission is still stored and the original deleted.
-/
theorem admin_bypasses_blacklist_witness :
    checkIfBlacklisted [555] adminBlMsg = true ∧
    handleMedia [1] [555] 7 adminBlMsg
      = [.storeMessage (some ⟨"sendPhoto", "f9", pickMessageProps adminBlMsg⟩),
         .deleteMessage 20 6] :=
  ⟨by decide,
   admin_bypasses_blacklist [1] [555] 7 adminBlMsg
     ⟨"sendPhoto", "f9", pickMessageProps adminBlMsg⟩ rfl rfl⟩

/--
An accept callback from the administrator with id 1 on a text-only prompt
message (whose re-encoding therefore fails).
-/
def acceptTextQuery : CallbackQuery :=
  { id := "q1", fromUser := ⟨1⟩, data := some "accept",
    message := { message_id := 3, chat := ⟨30⟩, fromUser := ⟨1⟩,
                 text := some "hello" } }

/--
Counterexample to C4: when a privileged caller accepts and re-encoding the
prompt's content fails, `handleCallbackQuery` returns early with the
rejection reply and never invokes the callback acknowledgment — the
acknowledgment is NOT called exactly once in every case.
-/
theorem ack_skipped_cex :
    checkAdminRights [1] acceptTextQuery.fromUser.id = true ∧
    acceptTextQuery.data = some "accept" ∧
    handleCallbackQuery [1] acceptTextQuery
      = [.sendText 30 "No text only content :("] ∧
    answerCount (handleCallbackQuery [1] acceptTextQuery) = 0 := by
  refine ⟨by decide, by decide, by decide, by decide⟩

/--
C4 (amended): `handleCallbackQuery` acknowledges the callback exactly once —
regardless of authorization and of the accept/reject decision — EXCEPT in
the one path where a privileged caller's accept decision fails re-encoding
with a serialization error: there the handler returns early after replying
with the rejection message and the acknowledgment is skipped (0 calls).
-/
theorem ack_once_unless_reencode_fails (admins : List Int) (cq : CallbackQuery) :
    answerCount (handleCallbackQuery admins cq) =
      if checkAdminRights admins cq.fromUser.id
         && cq.data == some "accept"
         && (serializeMessage cq.message).isErr
      then 0 else 1 := by
  by_cases ha : checkAdminRights admins cq.fromUser.id
  · by_cases hd : cq.data = some "accept"
    · rcases hser : serializeMessage cq.message with s | r | _ <;>
        simp [handleCallbackQuery, answerCount, ha, hd, hser, SerResult.isErr]
    · have hD : ¬(cq.data == some "accept") = true := by
        simpa using hd
      simp [handleCallbackQuery, answerCount, ha, hd, hD]
  · simp [handleCallbackQuery, answerCount, ha]

/-- Distinct store identifiers identify records uniquely. -/
theorem eq_of_docId_nodup {l : List QueueRecord}
    (hnd : (l.map QueueRecord.docId).Nodup) {a b : QueueRecord}
    (ha : a ∈ l) (hb : b ∈ l) (hid : a.docId = b.docId) : a = b := by
  induction l with
  | nil => cases ha
  | cons c l ih =>
    rw [List.map_cons, List.nodup_cons] at hnd
    rcases List.mem_cons.mp ha with rfl | ha' <;>
      rcases List.mem_cons.mp hb with rfl | hb'
    · rfl
    · exact absurd (hid ▸ List.mem_map_of_mem _ hb') hnd.1
    · exact absurd (hid ▸ List.mem_map_of_mem _ ha') hnd.1
    · exact ih hnd.2 ha' hb'

/--
With unique identifiers, removal by a member's identifier removes exactly
that member.
-/
theorem filter_docId_ne_eq_erase (l : List QueueRecord) (doc : QueueRecord)
    (hnd : (l.map QueueRecord.docId).Nodup) (hm : doc ∈ l) :
    l.filter (fun d => d.docId != doc.docId) = l.erase doc := by
  induction l with
  | nil => cases hm
  | cons c l ih =>
    rw [List.map_cons, List.nodup_cons] at hnd
    rcases List.mem_cons.mp hm with rfl | hm'
    · rw [List.filter_cons, List.erase_cons_head]
      simp only [bne_self_eq_false, if_neg Bool.false_ne_true,
        Bool.false_eq_true, if_false]
      apply List.filter_eq_self.mpr
      intro d hd
      have : d.docId ≠ doc.docId := fun he =>
        hnd.1 (he ▸ List.mem_map_of_mem _ hd)
      simpa using this
    · have hne : c.docId ≠ doc.docId := fun he =>
        hnd.1 (he ▸ List.mem_map_of_mem _ hm')
      have hner : ¬(c == doc) = true := by
        intro hcd
        exact hne (congrArg QueueRecord.docId (eq_of_beq hcd))
      rw [List.filter_cons, List.erase_cons_tail (by simpa using hner)]
      have : (c.docId != doc.docId) = true := by simpa using hne
      rw [if_pos this, ih hnd.2 hm']

/-- Erasing a record preserves store well-formedness. -/
theorem dbInv_erase (db : Db) (doc : QueueRecord) (inv : DbInv db) :
    DbInv { db with docs := db.docs.erase doc } := by
  constructor
  · exact List.Nodup.sublist
      (List.Sublist.map QueueRecord.docId (List.erase_sublist doc db.docs))
      inv.nodup
  · intro d hd
    exact inv.bounded d (List.mem_of_mem_erase hd)

/-- Embedded `postRandomMessage` on an empty store is a no-op. -/
theorem postRandomMessage_empty (db : Db) (r : ℚ) (h : dbCount db = 0) :
    postRandomMessage db r = (db, none) := by
  simp [postRandomMessage, h]

/--
Embedded `postRandomMessage` on a non-empty store with an in-range draw
returns a stored record and removes exactly it.
-/
theorem postRandomMessage_nonempty (db : Db) (r : ℚ) (inv : DbInv db)
    (hc : 0 < dbCount db) (h0 : 0 ≤ r) (h1 : r < 1) :
    ∃ doc, doc ∈ db.docs ∧
      postRandomMessage db r = ({ db with docs := db.docs.erase doc }, some doc) := by
  have hcq : (0:ℚ) < (dbCount db : ℚ) := by exact_mod_cast hc
  have hflt : ⌊r * (dbCount db : ℚ)⌋ < (dbCount db : ℤ) := by
    rw [Int.floor_lt]
    have : r * (dbCount db : ℚ) < 1 * (dbCount db : ℚ) :=
      mul_lt_mul_of_pos_right h1 hcq
    rw [one_mul] at this
    exact_mod_cast this
  have hfge : 0 ≤ ⌊r * (dbCount db : ℚ)⌋ :=
    Int.floor_nonneg.mpr (mul_nonneg h0 (le_of_lt hcq))
  have hk_lt : (⌊r * (dbCount db : ℚ)⌋).toNat < db.docs.length := by
    have : dbCount db = db.docs.length := rfl
    omega
  have hsome : db.docs[(⌊r * (dbCount db : ℚ)⌋).toNat]?
      = some (db.docs.get ⟨_, hk_lt⟩) := List.getElem?_eq_getElem hk_lt
  refine ⟨db.docs.get ⟨_, hk_lt⟩, List.get_mem _ _ hk_lt, ?_⟩
  rw [postRandomMessage]
  simp only [if_pos hc, hsome]
  rw [dbRemove, filter_docId_ne_eq_erase _ _ inv.nodup (List.get_mem _ _ hk_lt)]

/-- Once the store is empty, every further iteration of the loop is a no-op. -/
theorem postRandomMessages_drained (db : Db) (rs : List ℚ) (h : dbCount db = 0) :
    postRandomMessages db rs = (db, []) := by
  induction rs with
  | nil => rfl
  | cons r rest ih =>
    simp [postRandomMessages, postRandomMessage_empty db r h, ih]

/--
Batch behaviour of the embedded publish loop: well-formedness is preserved,
the records sent all come from the initial store and carry pairwise-distinct
identifiers, exactly `min requested backlog` records are sent, and the final
backlog is the truncated difference.
-/
theorem postRandomMessages_spec (rs : List ℚ) :
    ∀ db : Db, DbInv db → (∀ r ∈ rs, 0 ≤ r ∧ r < 1) →
      DbInv (postRandomMessages db rs).1 ∧
      ((postRandomMessages db rs).2.map QueueRecord.docId).Nodup ∧
      (∀ doc ∈ (postRandomMessages db rs).2, doc ∈ db.docs) ∧
      (postRandomMessages db rs).2.length = min rs.length (dbCount db) ∧
      dbCount (postRandomMessages db rs).1 = dbCount db - rs.length := by
  induction rs with
  | nil =>
    intro db inv _
    refine ⟨inv, by simp [postRandomMessages], by simp [postRandomMessages],
      by simp [postRandomMessages], by simp [postRandomMessages]⟩
  | cons r rest ih =>
    intro db inv hr
    by_cases hc : 0 < dbCount db
    · obtain ⟨doc, hdoc_mem, heq⟩ := postRandomMessage_nonempty db r inv hc
        (hr r (List.mem_cons_self r rest)).1 (hr r (List.mem_cons_self r rest)).2
      set db1 : Db := { db with docs := db.docs.erase doc } with hdb1
      have inv1 : DbInv db1 := dbInv_erase db doc inv
      have hcount1 : dbCount db1 = dbCount db - 1 :=
        List.length_erase_of_mem hdoc_mem
      obtain ⟨ihInv, ihNodup, ihMem, ihLen, ihCount⟩ :=
        ih db1 inv1 (fun x hx => hr x (List.mem_cons_of_mem r hx))
      have hstep : postRandomMessages db (r :: rest)
          = ((postRandomMessages db1 rest).1,
             doc :: (postRandomMessages db1 rest).2) := by
        rw [postRandomMessages, heq]
        rfl
      have hDocsNodup : db.docs.Nodup := inv.nodup.of_map
      have hDocNotErased : doc ∉ db.docs.erase doc := by
        intro hmem
        exact absurd (hDocsNodup.mem_erase_iff.mp hmem).1 (by simp)
      refine ⟨?_, ?_, ?_, ?_, ?_⟩
      · rw [hstep]; exact ihInv
      · rw [hstep]
        simp only [List.map_cons, List.nodup_cons]
        refine ⟨?_, ihNodup⟩
        intro hmem
        obtain ⟨d, hd, hdid⟩ := List.mem_map.mp hmem
        have hd1 : d ∈ db1.docs := ihMem d hd
        have hd0 : d ∈ db.docs := List.mem_of_mem_erase hd1
        have hddoc : d = doc := eq_of_docId_nodup inv.nodup hd0 hdoc_mem hdid
        rw [hddoc] at hd1
        exact hDocNotErased hd1
      · rw [hstep]
        intro d hd
        rcases List.mem_cons.mp hd with rfl | hd'
        · exact hdoc_mem
        · exact List.mem_of_mem_erase (ihMem d hd')
      · rw [hstep]
        simp only [List.length_cons]
        rw [ihLen, hcount1]
        omega
      · rw [hstep]
        rw [ihCount, hcount1]
        simp only [List.length_cons]
        omega
    · have h0 : dbCount db = 0 := by omega
      rw [postRandomMessages_drained db (r :: rest) h0]
      exact ⟨inv, by simp, by simp, by simp [h0], by simp [h0]⟩

/-- Inserting preserves store well-formedness. -/
theorem dbInv_insert (db : Db) (m : Option Serialized) (inv : DbInv db) :
    DbInv (dbInsert db m) := by
  constructor
  · rw [dbInsert]
    simp only [List.map_append, List.map_cons, List.map_nil]
    rw [List.nodup_append]
    refine ⟨inv.nodup, List.nodup_singleton _, ?_⟩
    intro x hx hx1
    simp at hx1
    obtain ⟨d, hd, hdid⟩ := List.mem_map.mp hx
    have := inv.bounded d hd
    omega
  · intro d hd
    rw [dbInsert] at hd
    rcases List.mem_append.mp hd with h | h
    · have := inv.bounded d h
      simp only [dbInsert]
      omega
    · simp at h
      simp [h, dbInsert]

/-- Inserting increments the backlog count by one. -/
theorem dbCount_insert (db : Db) (m : Option Serialized) :
    dbCount (dbInsert db m) = dbCount db + 1 := by
  simp [dbInsert, dbCount]

/-- Bulk insertion preserves well-formedness and adds one record each. -/
theorem dbInsertMany_spec (ms : List (Option Serialized)) :
    ∀ db : Db, DbInv db →
      DbInv (dbInsertMany db ms) ∧
      dbCount (dbInsertMany db ms) = dbCount db + ms.length := by
  induction ms with
  | nil => intro db inv; exact ⟨inv, by simp [dbInsertMany]⟩
  | cons m rest ih =>
    intro db inv
    have h1 : dbInsertMany db (m :: rest) = dbInsertMany (dbInsert db m) rest := rfl
    obtain ⟨hInv, hCount⟩ := ih (dbInsert db m) (dbInv_insert db m inv)
    rw [h1]
    refine ⟨hInv, ?_⟩
    rw [hCount, dbCount_insert]
    simp
    omega

/-- The empty store is well-formed. -/
theorem dbInv_empty : DbInv dbEmpty := by
  constructor <;> simp [dbEmpty]

/--
C7: `postRandomMessage` on an empty store is a no-op (nothing sent, nothing
changed); on a non-empty store it returns one stored record and deletes
exactly that record in the same logical operation; across a batch the sent
identifiers are pairwise distinct (the same persistent identifier is never
returned twice without an intervening insert), a requested batch of N
publishes exactly min(N, initial backlog) records without error, and N
inserts followed by N takes leave the count at 0.
-/
theorem queue_take_spec :
    (∀ (db : Db) (r : ℚ), dbCount db = 0 → postRandomMessage db r = (db, none)) ∧
    (∀ (db : Db) (r : ℚ), DbInv db → 0 < dbCount db → 0 ≤ r → r < 1 →
      ∃ doc, doc ∈ db.docs ∧
        postRandomMessage db r = ({ db with docs := db.docs.erase doc }, some doc) ∧
        dbCount (postRandomMessage db r).1 = dbCount db - 1 ∧
        doc ∉ (postRandomMessage db r).1.docs) ∧
    (∀ (db : Db) (rs : List ℚ), DbInv db → (∀ r ∈ rs, 0 ≤ r ∧ r < 1) →
      ((postRandomMessages db rs).2.map QueueRecord.docId).Nodup ∧
      (∀ doc ∈ (postRandomMessages db rs).2, doc ∈ db.docs) ∧
      (postRandomMessages db rs).2.length = min rs.length (dbCount db) ∧
      dbCount (postRandomMessages db rs).1 = dbCount db - rs.length) ∧
    (∀ (ms : List (Option Serialized)) (rs : List ℚ),
      rs.length = ms.length → (∀ r ∈ rs, 0 ≤ r ∧ r < 1) →
      dbCount (postRandomMessages (dbInsertMany dbEmpty ms) rs).1 = 0) := by
  refine ⟨postRandomMessage_empty, ?_, ?_, ?_⟩
  · intro db r inv hc h0 h1
    obtain ⟨doc, hmem, heq⟩ := postRandomMessage_nonempty db r inv hc h0 h1
    have hDocsNodup : db.docs.Nodup := inv.nodup.of_map
    refine ⟨doc, hmem, heq, ?_, ?_⟩
    · rw [heq]
      exact List.length_erase_of_mem hmem
    · rw [heq]
      intro hin
      exact absurd (hDocsNodup.mem_erase_iff.mp hin).1 (by simp)
  · intro db rs inv hr
    obtain ⟨_, h2, h3, h4, h5⟩ := postRandomMessages_spec rs db inv hr
    exact ⟨h2, h3, h4, h5⟩
  · intro ms rs hlen hr
    obtain ⟨hInv, hCount⟩ := dbInsertMany_spec ms dbEmpty dbInv_empty
    obtain ⟨_, _, _, _, h5⟩ := postRandomMessages_spec rs _ hInv hr
    rw [h5, hCount]
    simp [dbEmpty, dbCount, hlen]

/--
Witness for C7: a take on the empty store is a no-op, and one insert
followed by one take (draw 1/2) drains the store back to count 0.
-/
theorem queue_take_spec_witness :
    postRandomMessage dbEmpty (1/2) = (dbEmpty, none) ∧
    dbCount (postRandomMessages
      (dbInsertMany dbEmpty [some ⟨"sendPhoto", "w", emptyProps⟩]) [1/2]).1 = 0 :=
  ⟨queue_take_spec.1 dbEmpty (1/2) rfl,
   queue_take_spec.2.2.2 [some ⟨"sendPhoto", "w", emptyProps⟩] [1/2] rfl
     (by intro x hx; simp at hx; constructor <;> rw [hx] <;> norm_num)⟩

end PepeMage
